import Mathlib

/-!
# Verification of `audio_merger.py` (Craig Audio Merger)

Shallow embedding of the core logic of `src/audio_merger.py` and proofs of
specification claims about it.

Modelling conventions:
* Filesystem paths and names are Lean `String`s (or `List Char` where
  character-level work is needed).
* A directory's contents are modelled as the list of entry names, in the
  order the OS enumerates them.
* Python's `float` values that appear in the progress computation are
  modelled as exact rationals (`Rat`); every value occurring in the claims
  is exactly representable, and the arithmetic in question
  (`h*3600 + m*60 + s`, `elapsed/total*100`) is exact at those inputs.
* External processes (ffmpeg, ffprobe, the interactive prompt, the clock)
  are modelled by explicit oracle data passed in as arguments.
* The Python regexes (`\d` and the character classes) and `str.lower()`
  are modelled at ASCII level, matching their behaviour on all ASCII
  input.
-/

namespace CraigAudio

/-! ## Ordering utilities

Python compares sort keys with `<` on lists, which compares element-wise
(first by `==`, then by `<` at the first difference).  We realise this
with three-valued comparators. -/

/-- Three-way comparison on `Nat`, mirroring Python `int` comparison. -/
def natCmp (m n : Nat) : Ordering :=
  if m < n then .lt else if n < m then .gt else .eq

/-- Lexicographic comparison of character lists by code point, mirroring
Python `str` comparison. -/
def strCmp : List Char → List Char → Ordering
  | [], [] => .eq
  | [], _ :: _ => .lt
  | _ :: _, [] => .gt
  | a :: s, b :: t => if a = b then strCmp s t else natCmp a.toNat b.toNat

/-- One element of a natural-sort key: `int(s)` for a digit run, `s.lower()`
for a non-digit run (cf. the sort key in `scan_audio_files`). -/
inductive KeyElem where
  | num (n : Nat)
  | str (s : List Char)
deriving DecidableEq, Repr

/-- Comparison of key elements.  In the program a digit run is never
compared against a non-digit run (runs at equal positions have equal
parity), so the order chosen for the mixed case is immaterial; it is fixed
to make the comparator total. -/
def elemCmp : KeyElem → KeyElem → Ordering
  | .num m, .num n => natCmp m n
  | .str s, .str t => strCmp s t
  | .num _, .str _ => .lt
  | .str _, .num _ => .gt

/-- Lexicographic comparison of key lists, mirroring Python list
comparison. -/
def keyCmp : List KeyElem → List KeyElem → Ordering
  | [], [] => .eq
  | [], _ :: _ => .lt
  | _ :: _, [] => .gt
  | a :: s, b :: t => if a = b then keyCmp s t else elemCmp a b

/-- `o ≠ .gt`, as a Bool: the "less or equivalent" reading of a
three-way comparison. -/
def ordIsLE (o : Ordering) : Bool :=
  match o with
  | .gt => false
  | _ => true

/-! ## The natural-sort key of `scan_audio_files`

`audio_merger.py` sorts with
`key=lambda x: [int(s) if s.isdigit() else s.lower() for s in re.split(r"(\d+)", x.name)]`.
`re.split` with a capturing group of digit runs yields the alternation
`[nondigits, digits, nondigits, …, nondigits]` where the first and last
(non-digit) parts may be empty and digit parts are nonempty; `splitAlt`
builds exactly that list. -/

/-- One step of `splitAlt`: prepend character `c` to an alternation
`[nondigits, digits, nondigits, …]`.  A non-digit character extends the
leading non-digit run; a digit character extends the adjacent digit run
when the leading non-digit run is empty, and otherwise opens a new digit
run preceded by an empty non-digit run. -/
def splitAltStep (c : Char) (acc : List (List Char)) : List (List Char) :=
  if c.isDigit then
    match acc with
    | [] :: d :: rest => [] :: (c :: d) :: rest
    | _ => [] :: [c] :: acc
  else
    match acc with
    | nd :: rest => (c :: nd) :: rest
    | [] => [[c]]

/-- Split a character list into the alternating runs produced by
`re.split(r"(\d+)", s)`: a (possibly empty) non-digit run, then a nonempty
digit run, and so on, ending with a (possibly empty) non-digit run. -/
def splitAlt (cs : List Char) : List (List Char) :=
  cs.foldr splitAltStep [[]]

/-- Decimal value of a digit run, as computed by Python `int(s)`. -/
def digitsVal (p : List Char) : Nat :=
  p.foldl (fun acc c => acc * 10 + (c.toNat - 48)) 0

/-- `int(s) if s.isdigit() else s.lower()` applied to one run.
(`s.isdigit()` is false for the empty string.) -/
def keyOfRun (p : List Char) : KeyElem :=
  if p ≠ [] ∧ p.all Char.isDigit then .num (digitsVal p)
  else .str (p.map Char.toLower)

/-- The natural-sort key of a filename, from `scan_audio_files`. -/
def natSortKey (name : String) : List KeyElem :=
  (splitAlt name.data).map keyOfRun

/-- The boolean "key of `a` ≤ key of `b`" order that Python's stable
`list.sort(key=…)` sorts by. -/
def natLE (a b : String) : Bool :=
  ordIsLE (keyCmp (natSortKey a) (natSortKey b))

/-! ## `scan_audio_files`

A folder is modelled by the list of its entry names in OS enumeration
order.  `folder.glob(f"*{ext}")` collects the entries whose name ends with
`ext`; on POSIX (the script carries a Unix shebang) this match is
case-sensitive. -/

/-- `self.supported_formats` from `CraigAudioMerger.__init__`. -/
def supported_formats : List String := [".aac", ".mp3", ".wav", ".m4a"]

/-- `folder.glob(f"*{ext}")` membership test for one entry name:
the name ends with `ext` (case-sensitive, POSIX glob semantics). -/
def globMatch (ext : String) (name : String) : Bool :=
  ext.data.isSuffixOf name.data

/-- `scan_audio_files`: collect entries matching each supported extension
in turn, then sort the collection with the natural-sort key.  Python's
`list.sort` is stable; `List.mergeSort` is the stable sort on the same
total preorder. -/
def scan_audio_files (entries : List String) : List String :=
  let audio_files :=
    supported_formats.flatMap (fun ext => entries.filter (globMatch ext))
  audio_files.mergeSort natLE

/-! ## `detect_craig_folders`

`craig_pattern = re.compile(r"craig-[a-zA-Z0-9_-]+")`, used with
`.match`, which anchors at the start of the name only. -/

/-- Membership in the character class `[a-zA-Z0-9_-]`. -/
def isWordDashChar (c : Char) : Bool :=
  c.isAlpha || c.isDigit || c = '_' || c = '-'

/-- `bool(craig_pattern.match(name))`: the name starts with `craig-`
followed by at least one character of the class; anything may follow. -/
def craig_pattern_match (name : String) : Bool :=
  match name.data with
  | 'c' :: 'r' :: 'a' :: 'i' :: 'g' :: '-' :: c :: _ => isWordDashChar c
  | _ => false

/-- A directory entry of the base directory: a name and whether it is a
directory. -/
structure DirEntry where
  name : String
  isDir : Bool
deriving DecidableEq, Repr

/-- `detect_craig_folders`: keep the directories whose name matches the
pattern, in enumeration order. -/
def detect_craig_folders (items : List DirEntry) : List DirEntry :=
  items.filter (fun item => item.isDir && craig_pattern_match item.name)

/-! ## `build_ffmpeg_command` -/

/-- `quality_map = {"low": "4", "medium": "2", "high": "0"}` lookup. -/
def quality_map (q : String) : Option String :=
  if q = "low" then some "4"
  else if q = "medium" then some "2"
  else if q = "high" then some "0"
  else none

/-- `codec_map = {"mp3": …, "wav": …, "ogg": …, "aac": …}` lookup. -/
def codec_map (fmt : String) : Option String :=
  if fmt = "mp3" then some "libmp3lame"
  else if fmt = "wav" then some "pcm_s16le"
  else if fmt = "ogg" then some "libvorbis"
  else if fmt = "aac" then some "aac"
  else none

/-- `"".join(f"[{i}:a]" for i in range(num_inputs))`. -/
def inputs_str (n : Nat) : String :=
  String.join ((List.range n).map (fun i => "[" ++ toString i ++ ":a]"))

/-- Python `str.split(sep)` for a single-character separator. -/
def splitOnChar (sep : Char) : List Char → List (List Char)
  | [] => [[]]
  | c :: rest =>
    let r := splitOnChar sep rest
    if c = sep then [] :: r
    else
      match r with
      | g :: gs => (c :: g) :: gs
      | [] => [[c]]

/-- `Path.name`: the final path component (pathlib ignores empty
segments arising from repeated or trailing separators). -/
def pathFinalName (p : String) : String :=
  match ((splitOnChar '/' p.data).filter (fun seg => !seg.isEmpty)).getLast? with
  | some seg => ⟨seg⟩
  | none => ""

/-- `Path.stem`: the final component without its extension (CPython drops
`name[i:]` for the last dot index `i` when `0 < i < len(name) - 1`). -/
def pathStem (p : String) : String :=
  let nm := pathFinalName p
  match nm.data.reverse.findIdx? (fun c => c = '.') with
  | none => nm
  | some j =>
    let i := nm.data.length - 1 - j
    if 0 < i ∧ i < nm.data.length - 1 then ⟨nm.data.take i⟩ else nm

/-- `re.sub(r"^craig-", "", s)`. -/
def stripCraig (s : String) : String :=
  if "craig-".data.isPrefixOf s.data then ⟨s.data.drop 6⟩ else s

/-- `build_ffmpeg_command`.  Failures (`raise ValueError`) are modelled by
`Except.error` carrying the exception message.  `today` stands for
`time.strftime("%Y-%m-%d")`, an input from the clock. -/
def build_ffmpeg_command (input_files : List String) (output_file : String)
    (output_format : String) (quality_level : String) (today : String) :
    Except String (List String) :=
  if input_files.isEmpty then .error "No input files provided"
  else
    let cmd := ["ffmpeg", "-y"] ++ input_files.flatMap (fun f => ["-i", f])
    let num_inputs := input_files.length
    let filter_graph :=
      if num_inputs = 1 then "[0:a]loudnorm=I=-16:TP=-1.5:LRA=11[out]"
      else
        inputs_str num_inputs ++ "amix=inputs=" ++ toString num_inputs ++
          ":duration=longest:dropout_transition=2,loudnorm=I=-16:TP=-1.5:LRA=11[out]"
    let cmd := cmd ++ ["-filter_complex", filter_graph, "-map", "[out]"]
    match codec_map output_format with
    | none => .error ("Unsupported output format: " ++ output_format)
    | some codec =>
      let cmd := cmd ++
        ["-c:a", codec, "-q:a", (quality_map quality_level).getD "2",
          "-ar", "44100", "-ac", "2", "-avoid_negative_ts", "make_zero"]
      let clean_name := stripCraig (pathStem output_file)
      let cmd := cmd ++
        ["-metadata", "title=Merged " ++ clean_name,
          "-metadata", "artist=Craig Recording",
          "-metadata", "date=" ++ today]
      .ok (cmd ++ [output_file])

/-! ## `execute_ffmpeg`, `_time_to_seconds` and progress parsing -/

/-- Python `int(s)` on a string of decimal digits (`none` models the
`ValueError` on any other shape). -/
def parseInt (cs : List Char) : Option Nat :=
  if cs ≠ [] ∧ cs.all Char.isDigit then some (digitsVal cs) else none

/-- `int(a) + int(b)/10^len(b)`: the value of the float literal `a.b`. -/
def parseFloatParts (a b : List Char) : Option Rat :=
  match parseInt a, parseInt b with
  | some n, some f => some ((n : Rat) + (f : Rat) / ((10 : Rat) ^ b.length))
  | _, _ => none

/-- Python `float(s)` restricted to the shapes the progress regex can
produce: `digits` or `digits.digits`. -/
def parseFloat (cs : List Char) : Option Rat :=
  match splitOnChar '.' cs with
  | [a] => (parseInt a).map (fun n => (n : Rat))
  | [a, b] => parseFloatParts a b
  | _ => none

/-- `int(h) * 3600 + int(m) * 60 + float(s)` on the three parts of the
time string. -/
def timeParts (h m s : List Char) : Option Rat :=
  match parseInt h, parseInt m, parseFloat s with
  | some hv, some mv, some sv =>
    some ((hv : Rat) * 3600 + (mv : Rat) * 60 + sv)
  | _, _, _ => none

/-- `_time_to_seconds`: `h, m, s = time_str.split(":")`;
`int(h) * 3600 + int(m) * 60 + float(s)`.  `none` models the `ValueError`
raised on any other shape (never reached for regex-matched markers). -/
def time_to_seconds (t : String) : Option Rat :=
  match splitOnChar ':' t.data with
  | [h, m, s] => timeParts h m s
  | _ => none

/-- Greedy match of `\d+:\d+:\d+\.\d+` at the start of `cs`, returning the
matched characters.  (Greedy matching with no backtracking is exact here:
each `\d+` is followed by a non-digit literal.) -/
def matchTimePattern (cs : List Char) : Option (List Char) :=
  match cs.takeWhile Char.isDigit, cs.dropWhile Char.isDigit with
  | [], _ => none
  | d1, ':' :: r1 =>
    match r1.takeWhile Char.isDigit, r1.dropWhile Char.isDigit with
    | [], _ => none
    | d2, ':' :: r2 =>
      match r2.takeWhile Char.isDigit, r2.dropWhile Char.isDigit with
      | [], _ => none
      | d3, '.' :: r3 =>
        match r3.takeWhile Char.isDigit with
        | [] => none
        | d4 => some (d1 ++ ':' :: d2 ++ ':' :: d3 ++ '.' :: d4)
      | _, _ => none
    | _, _ => none
  | _, _ => none

/-- `re.search(r"time=(\d+:\d+:\d+\.\d+)", line)`: the captured group at
the first position where the pattern matches. -/
def findTimeMarker : List Char → Option (List Char)
  | [] => none
  | 't' :: 'i' :: 'm' :: 'e' :: '=' :: after =>
    match matchTimePattern after with
    | some g => some g
    | none => findTimeMarker ('i' :: 'm' :: 'e' :: '=' :: after)
  | _ :: rest => findTimeMarker rest

/-- Progress value computed from a matched marker:
`(current/total)*100 if total_duration > 0 else 0`. -/
def markerProgress (total : Rat) (marker : List Char) : Option Rat :=
  match time_to_seconds ⟨marker⟩ with
  | none => none
  | some current => some (if total > 0 then current / total * 100 else 0)

/-- One iteration body of the progress loop: for a line containing a time
marker, the percentage written to stdout. -/
def lineProgress (total : Rat) (line : String) : Option Rat :=
  match findTimeMarker line.data with
  | none => none
  | some marker => markerProgress total marker

/-- The ffmpeg process for one folder, as the orchestrator observes it:
the lines its diagnostic stream carries and its exit status. -/
structure FFmpegProc where
  stderrLines : List String
  exitCode : Int
deriving DecidableEq, Repr

/-- The monitoring loop of `execute_ffmpeg`: it reads the diagnostic
stream line by line and only breaks once `readline` has hit end of stream
(`output == ""`) with the process exited, so it consumes the entire
stream.  Returns the progress values emitted and the unread remainder of
the stream — which is always empty. -/
def monitor_progress (total : Rat) (lines : List String) :
    List Rat × List String :=
  (lines.filterMap (lineProgress total), [])

/-- `execute_ffmpeg`: drain the diagnostic stream through the monitoring
loop, then read the remainder (`process.stderr.read()`) as the error
detail.  Exit code 0 yields `(true, "")`; anything else yields `false`
with that remainder.  Also returns the emitted progress values. -/
def execute_ffmpeg (p : FFmpegProc) (total_duration : Rat) :
    (Bool × String) × List Rat :=
  let r := monitor_progress total_duration p.stderrLines
  let stderr_output := String.join r.2
  if p.exitCode = 0 then ((true, ""), r.1)
  else ((false, stderr_output), r.1)

/-! ## `merge_audio_files` and `process_all_craig_folders` -/

/-- The fragment of `merge_audio_files` that constructs the command and
only then launches the external process; a `ValueError` during
construction is caught by the surrounding `except`, yielding failure with
no launch.  The launcher is abstracted as `exec`. -/
def run_merge (input_files : List String)
    (output_file output_format quality_level today : String)
    (exec : List String → Bool × String) : Bool × String :=
  match build_ffmpeg_command input_files output_file output_format
      quality_level today with
  | .error e => (false, e)
  | .ok cmd => exec cmd

/-- Python `str.lower()` (ASCII level). -/
def pyLower (s : String) : String :=
  ⟨s.data.map Char.toLower⟩

/-- `delete_originals`: read the confirmation answer, lower-case it, and
when it equals `"y"` unlink every input file.  The filesystem is the list
of existing file paths. -/
def delete_originals_run (answer : String) (input_files : List String)
    (fs : List String) : List String :=
  if pyLower answer = "y" then
    fs.filter (fun f => !input_files.contains f)
  else fs

/-- Everything one folder's processing depends on: the folder's entries
and the oracle data of the external interactions made for it. -/
structure FolderEnv where
  entries : List String      -- names in the craig folder (OS order)
  exitCode : Int             -- ffmpeg exit status for this folder
  stderrLines : List String  -- ffmpeg diagnostic stream
  outputExists : Bool        -- output_file.exists() after the run
  answer : String            -- reply to the "Delete original files?" prompt
  output_file : String       -- generated output path
  total_duration : Rat       -- duration estimate from probing

/-- `merge_audio_files` for one folder, with the filesystem of original
files threaded explicitly.  Any exception inside the `try` block
(including the `ValueError` from command construction) is caught and
yields `false`. -/
def merge_audio_files (output_format quality_level : String)
    (del_originals : Bool) (today : String) (env : FolderEnv)
    (fs : List String) : Bool × List String :=
  let audio_files := scan_audio_files env.entries
  if audio_files.isEmpty then (false, fs)
  else
    match build_ffmpeg_command audio_files env.output_file output_format
        quality_level today with
    | .error _ => (false, fs)
    | .ok _cmd =>
      let success :=
        (execute_ffmpeg ⟨env.stderrLines, env.exitCode⟩ env.total_duration).1.1
      if success && env.outputExists then
        if del_originals then
          (true, delete_originals_run env.answer audio_files fs)
        else (true, fs)
      else (false, fs)

/-- The run summary logged by `process_all_craig_folders`. -/
structure RunSummary where
  total : Nat
  successful : Nat
  failed : Nat
deriving DecidableEq, Repr

/-- The per-folder loop and summary of `process_all_craig_folders`, after
the tool check and folder discovery have succeeded and dry-run mode is
off: each folder is processed in turn, incrementing exactly one of the
two counters, and the summary is built at the end. -/
def process_all_craig_folders (output_format quality_level : String)
    (del_originals : Bool) (today : String) (folders : List FolderEnv)
    (fs : List String) : RunSummary × List String :=
  let step := fun (acc : (Nat × Nat) × List String) (folder : FolderEnv) =>
    let r := merge_audio_files output_format quality_level del_originals
      today folder acc.2
    if r.1 then ((acc.1.1 + 1, acc.1.2), r.2)
    else ((acc.1.1, acc.1.2 + 1), r.2)
  let r := folders.foldl step ((0, 0), fs)
  (⟨folders.length, r.1.1, r.1.2⟩, r.2)

/-! ## Lemmas about the comparators -/

theorem natCmp_swap (m n : Nat) : (natCmp m n).swap = natCmp n m := by
  unfold natCmp
  split_ifs <;> first | rfl | omega

theorem natCmp_eq_iff (m n : Nat) : natCmp m n = .eq ↔ m = n := by
  unfold natCmp
  split_ifs <;> constructor <;> intro h <;> first | rfl | omega | simp_all

theorem natCmp_lt_iff (m n : Nat) : natCmp m n = .lt ↔ m < n := by
  unfold natCmp
  split_ifs <;> constructor <;> intro h <;> first | rfl | omega | simp_all

theorem natCmp_lt_trans {a b c : Nat} (h₁ : natCmp a b = .lt)
    (h₂ : natCmp b c = .lt) : natCmp a c = .lt := by
  rw [natCmp_lt_iff] at *
  omega

theorem char_toNat_inj {a b : Char} (h : a.toNat = b.toNat) : a = b :=
  Char.eq_of_val_eq (UInt32.eq_of_val_eq (Fin.eq_of_val_eq h))

theorem strCmp_swap (s t : List Char) : (strCmp s t).swap = strCmp t s := by
  induction s generalizing t with
  | nil => cases t <;> rfl
  | cons a s ih =>
    cases t with
    | nil => rfl
    | cons b t =>
      by_cases hab : a = b
      · subst hab
        simp [strCmp, ih]
      · have hba : b ≠ a := fun h => hab h.symm
        simp [strCmp, hab, hba, natCmp_swap]

theorem strCmp_eq_iff (s t : List Char) : strCmp s t = .eq ↔ s = t := by
  induction s generalizing t with
  | nil => cases t <;> simp [strCmp]
  | cons a s ih =>
    cases t with
    | nil => simp [strCmp]
    | cons b t =>
      by_cases hab : a = b
      · subst hab
        simp [strCmp, ih]
      · simp [strCmp, hab]
        intro h
        rw [natCmp_eq_iff] at h
        exact absurd (char_toNat_inj h) hab

theorem strCmp_lt_trans {s t u : List Char} (h₁ : strCmp s t = .lt)
    (h₂ : strCmp t u = .lt) : strCmp s u = .lt := by
  induction s generalizing t u with
  | nil =>
    cases t with
    | nil => exact absurd h₁ (by simp [strCmp])
    | cons b t =>
      cases u with
      | nil => exact absurd h₂ (by simp [strCmp])
      | cons c u => simp [strCmp]
  | cons a s ih =>
    cases t with
    | nil => exact absurd h₁ (by simp [strCmp])
    | cons b t =>
      cases u with
      | nil => exact absurd h₂ (by simp [strCmp])
      | cons c u =>
        by_cases hab : a = b <;> by_cases hbc : b = c
        · subst hab; subst hbc
          simp only [strCmp, if_pos rfl] at *
          exact ih h₁ h₂
        · subst hab
          simpa [strCmp, hbc] using h₂
        · subst hbc
          simpa [strCmp, hab] using h₁
        · simp only [strCmp, if_neg hab] at h₁
          simp only [strCmp, if_neg hbc] at h₂
          have hlt := natCmp_lt_trans h₁ h₂
          have hac : a ≠ c := by
            intro h
            subst h
            rw [natCmp_lt_iff] at hlt
            omega
          simp [strCmp, hac, hlt]

theorem elemCmp_swap (a b : KeyElem) : (elemCmp a b).swap = elemCmp b a := by
  cases a <;> cases b <;>
    first
      | exact natCmp_swap _ _
      | exact strCmp_swap _ _
      | rfl

theorem elemCmp_eq_iff (a b : KeyElem) : elemCmp a b = .eq ↔ a = b := by
  cases a <;> cases b <;>
    simp [elemCmp, natCmp_eq_iff, strCmp_eq_iff]

theorem elemCmp_lt_trans {a b c : KeyElem} (h₁ : elemCmp a b = .lt)
    (h₂ : elemCmp b c = .lt) : elemCmp a c = .lt := by
  cases a <;> cases b <;> cases c <;> simp only [elemCmp] at h₁ h₂ ⊢ <;>
    first
      | rfl
      | exact natCmp_lt_trans h₁ h₂
      | exact strCmp_lt_trans h₁ h₂
      | exact absurd h₁ (by decide)
      | exact absurd h₂ (by decide)

theorem keyCmp_swap (s t : List KeyElem) : (keyCmp s t).swap = keyCmp t s := by
  induction s generalizing t with
  | nil => cases t <;> rfl
  | cons a s ih =>
    cases t with
    | nil => rfl
    | cons b t =>
      by_cases hab : a = b
      · subst hab
        simp [keyCmp, ih]
      · have hba : b ≠ a := fun h => hab h.symm
        simp [keyCmp, hab, hba, elemCmp_swap]

theorem keyCmp_eq_iff (s t : List KeyElem) : keyCmp s t = .eq ↔ s = t := by
  induction s generalizing t with
  | nil => cases t <;> simp [keyCmp]
  | cons a s ih =>
    cases t with
    | nil => simp [keyCmp]
    | cons b t =>
      by_cases hab : a = b
      · subst hab
        simp [keyCmp, ih]
      · simp [keyCmp, hab]
        intro h
        exact absurd ((elemCmp_eq_iff a b).mp h) hab

theorem keyCmp_lt_trans {s t u : List KeyElem} (h₁ : keyCmp s t = .lt)
    (h₂ : keyCmp t u = .lt) : keyCmp s u = .lt := by
  induction s generalizing t u with
  | nil =>
    cases t with
    | nil => exact absurd h₁ (by simp [keyCmp])
    | cons b t =>
      cases u with
      | nil => exact absurd h₂ (by simp [keyCmp])
      | cons c u => simp [keyCmp]
  | cons a s ih =>
    cases t with
    | nil => exact absurd h₁ (by simp [keyCmp])
    | cons b t =>
      cases u with
      | nil => exact absurd h₂ (by simp [keyCmp])
      | cons c u =>
        by_cases hab : a = b <;> by_cases hbc : b = c
        · subst hab; subst hbc
          simp only [keyCmp, if_pos rfl] at *
          exact ih h₁ h₂
        · subst hab
          simpa [keyCmp, hbc] using h₂
        · subst hbc
          simpa [keyCmp, hab] using h₁
        · simp only [keyCmp, if_neg hab] at h₁
          simp only [keyCmp, if_neg hbc] at h₂
          have hlt := elemCmp_lt_trans h₁ h₂
          have hac : a ≠ c := by
            intro h
            subst h
            have hs : (elemCmp a b).swap = .lt := (elemCmp_swap a b).trans h₂
            rw [h₁] at hs
            simp [Ordering.swap] at hs
          simp [keyCmp, hac, hlt]

theorem keyCmp_not_gt_iff (s t : List KeyElem) :
    keyCmp s t ≠ .gt ↔ keyCmp s t = .lt ∨ s = t := by
  rw [← keyCmp_eq_iff]
  cases h : keyCmp s t <;> simp

theorem keyCmp_le_total (s t : List KeyElem) :
    keyCmp s t ≠ .gt ∨ keyCmp t s ≠ .gt := by
  cases h : keyCmp s t with
  | lt => exact .inl (by simp [h])
  | eq => exact .inl (by simp [h])
  | gt =>
    refine .inr ?_
    have := keyCmp_swap s t
    rw [h] at this
    simp [← this, Ordering.swap]

theorem keyCmp_le_trans {s t u : List KeyElem} (h₁ : keyCmp s t ≠ .gt)
    (h₂ : keyCmp t u ≠ .gt) : keyCmp s u ≠ .gt := by
  rw [keyCmp_not_gt_iff] at h₁ h₂ ⊢
  rcases h₁ with h₁ | rfl
  · rcases h₂ with h₂ | rfl
    · exact .inl (keyCmp_lt_trans h₁ h₂)
    · exact .inl h₁
  · exact h₂

theorem natLE_iff (a b : String) :
    natLE a b = true ↔ keyCmp (natSortKey a) (natSortKey b) ≠ .gt := by
  unfold natLE ordIsLE
  cases keyCmp (natSortKey a) (natSortKey b) <;> simp

theorem natLE_trans (a b c : String) (h₁ : natLE a b) (h₂ : natLE b c) :
    natLE a c := by
  rw [natLE_iff] at h₁ h₂ ⊢
  exact keyCmp_le_trans h₁ h₂

theorem natLE_total (a b : String) : natLE a b || natLE b a := by
  rcases keyCmp_le_total (natSortKey a) (natSortKey b) with h | h
  · rw [Bool.or_eq_true, natLE_iff]
    exact .inl h
  · rw [Bool.or_eq_true, natLE_iff, natLE_iff]
    exact .inr h

/-- Two sorted lists that are permutations of each other coincide, given
antisymmetry of the order on the elements involved. -/
theorem pairwise_perm_unique {α : Type} {r : α → α → Bool} :
    ∀ {l₁ l₂ : List α}, l₁.Pairwise (r · ·) → l₂.Pairwise (r · ·) →
      l₁.Perm l₂ → (∀ a b, a ∈ l₁ → b ∈ l₁ → r a b → r b a → a = b) →
      l₁ = l₂
  | [], [], _, _, _, _ => rfl
  | [], b :: t₂, _, _, hp, _ => absurd (hp.symm.mem_iff.mp (.head _)) (by simp)
  | a :: t₁, [], _, _, hp, _ => absurd (hp.mem_iff.mp (.head _)) (by simp)
  | a :: t₁, b :: t₂, h₁, h₂, hp, hanti => by
    have hab : a = b := by
      by_cases h : a = b
      · exact h
      · have ha2 : a ∈ b :: t₂ := hp.mem_iff.mp (.head _)
        have hb1 : b ∈ a :: t₁ := hp.symm.mem_iff.mp (.head _)
        have ha2' : a ∈ t₂ := by
          cases ha2 with
          | head => exact absurd rfl h
          | tail _ hm => exact hm
        have hb1' : b ∈ t₁ := by
          cases hb1 with
          | head => exact absurd rfl (fun hh => h hh.symm)
          | tail _ hm => exact hm
        have hrab : r a b := (List.pairwise_cons.mp h₁).1 b hb1'
        have hrba : r b a := (List.pairwise_cons.mp h₂).1 a ha2'
        exact hanti a b (.head _) (.tail _ hb1') hrab hrba
    subst hab
    have htp : t₁.Perm t₂ := hp.cons_inv
    have := pairwise_perm_unique (List.pairwise_cons.mp h₁).2
      (List.pairwise_cons.mp h₂).2 htp
      (fun x y hx hy => hanti x y (.tail _ hx) (.tail _ hy))
    rw [this]

/-- Evaluation of the natural sort on concrete lists: the sorted
permutation is unique once the keys of the elements involved are
antisymmetric. -/
theorem mergeSort_natLE_eq (l out : List String)
    (hperm : l.Perm out)
    (hsorted : out.Pairwise (fun a b => natLE a b = true))
    (hanti : ∀ a ∈ l, ∀ b ∈ l, natLE a b = true → natLE b a = true → a = b) :
    l.mergeSort natLE = out := by
  apply pairwise_perm_unique (List.sorted_mergeSort natLE_trans natLE_total l)
    hsorted ((List.mergeSort_perm l natLE).trans hperm)
  intro a b ha hb
  rw [List.mem_mergeSort] at ha hb
  exact hanti a ha b hb

/-! ## Claim C3: the folder-match predicate -/

/-- C3: `craig_pattern.match` accepts exactly the names that start with
`craig-` followed by one or more characters from `[A-Za-z0-9_-]`;
matching is prefix-anchored, so anything may follow a matching prefix.
`notcraig-x`, `craig` and `craig-` are rejected. -/
theorem craig_pattern_match_spec :
    (∀ name : String, craig_pattern_match name = true ↔
      ∃ s rest : List Char,
        name.data = "craig-".data ++ s ++ rest ∧ s ≠ [] ∧
          s.all isWordDashChar = true) ∧
    craig_pattern_match "notcraig-x" = false ∧
    craig_pattern_match "craig" = false ∧
    craig_pattern_match "craig-" = false ∧
    craig_pattern_match "craig-session1" = true ∧
    craig_pattern_match "craig-a!not&class*chars" = true := by
  refine ⟨?_, by decide, by decide, by decide, by decide, by decide⟩
  intro name
  constructor
  · intro h
    unfold craig_pattern_match at h
    split at h
    · rename_i heq
      exact ⟨[_], _, by simpa using heq, by simp, by simpa using h⟩
    · exact absurd h (by simp)
  · rintro ⟨s, rest, heq, hne, hall⟩
    cases s with
    | nil => exact absurd rfl hne
    | cons c s' =>
      have heq' : name.data =
          'c' :: 'r' :: 'a' :: 'i' :: 'g' :: '-' :: c :: (s' ++ rest) := by
        simpa using heq
      have hc : isWordDashChar c = true := by
        have := List.all_eq_true.mp hall c (by simp)
        simpa using this
      unfold craig_pattern_match
      rw [heq']
      exact hc

/-! ## Claim C5: empty input list -/

/-- C5: with an empty input list, command construction fails with the
`ValueError` "No input files provided", and the result of the surrounding
merge step is failure, independent of the process launcher (so no
external process is launched). -/
theorem build_empty_input_fails :
    (∀ output_file output_format quality_level today : String,
      build_ffmpeg_command [] output_file output_format quality_level today =
        .error "No input files provided") ∧
    (∀ (output_file output_format quality_level today : String)
      (exec₁ exec₂ : List String → Bool × String),
      run_merge [] output_file output_format quality_level today exec₁ =
          (false, "No input files provided") ∧
        run_merge [] output_file output_format quality_level today exec₁ =
          run_merge [] output_file output_format quality_level today exec₂) :=
  ⟨fun _ _ _ _ => rfl, fun _ _ _ _ _ _ => ⟨rfl, rfl⟩⟩

/-! ## Claim C6: unsupported output format -/

/-- C6: for any output format outside {mp3, wav, ogg, aac}, command
construction fails with a `ValueError`, and the merge step fails
independently of the process launcher (so no process is launched). -/
theorem build_unsupported_format_fails
    (input_files : List String)
    (output_file quality_level today output_format : String)
    (hfmt : output_format ∉ (["mp3", "wav", "ogg", "aac"] : List String)) :
    (∃ e, build_ffmpeg_command input_files output_file output_format
        quality_level today = .error e) ∧
    (∀ exec₁ exec₂ : List String → Bool × String,
      (run_merge input_files output_file output_format quality_level today
          exec₁).1 = false ∧
        run_merge input_files output_file output_format quality_level today
            exec₁ =
          run_merge input_files output_file output_format quality_level today
            exec₂) := by
  have hcodec : codec_map output_format = none := by
    unfold codec_map
    split_ifs with h1 h2 h3 h4
    · exact absurd (by simp [h1]) hfmt
    · exact absurd (by simp [h2]) hfmt
    · exact absurd (by simp [h3]) hfmt
    · exact absurd (by simp [h4]) hfmt
    · rfl
  have hbuild : ∃ e, build_ffmpeg_command input_files output_file
      output_format quality_level today = .error e := by
    unfold build_ffmpeg_command
    rw [hcodec]
    split
    · exact ⟨_, rfl⟩
    · exact ⟨_, rfl⟩
  obtain ⟨e, he⟩ := hbuild
  refine ⟨⟨e, he⟩, fun exec₁ exec₂ => ?_⟩
  unfold run_merge
  rw [he]
  exact ⟨rfl, rfl⟩

/-- Witness for `build_unsupported_format_fails` at the format `flac`. -/
theorem build_unsupported_format_fails_witness :
    "flac" ∉ (["mp3", "wav", "ogg", "aac"] : List String) ∧
    (∃ e, build_ffmpeg_command ["a.aac"] "out.flac" "flac" "medium"
        "2024-01-01" = .error e) :=
  ⟨by decide,
    (build_unsupported_format_fails ["a.aac"] "out.flac" "medium"
      "2024-01-01" "flac" (by decide)).1⟩

/-! ## Claim C1: command structure -/

/-- C1: for a non-empty input list (and a supported format), the built
command starts with `ffmpeg -y`, contains one `-i <file>` pair per input
in exactly the given list order, then `-filter_complex` with: for a single
input, only the loudness-normalization filter on `[0:a]` labelled `[out]`;
for `N > 1` inputs, the channel references `[0:a]…[N-1:a]` in positional
order, the N-input mix (duration `longest`, 2-second dropout transition),
chained by a comma into the same normalization filter labelled `[out]`;
followed by `-map [out]`. -/
theorem build_command_structure
    (input_files : List String)
    (output_file quality_level today output_format codec : String)
    (hne : input_files ≠ [])
    (hcodec : codec_map output_format = some codec) :
    build_ffmpeg_command input_files output_file output_format quality_level
        today =
      .ok (["ffmpeg", "-y"] ++ input_files.flatMap (fun f => ["-i", f]) ++
        ["-filter_complex",
          (if input_files.length = 1 then
            "[0:a]loudnorm=I=-16:TP=-1.5:LRA=11[out]"
          else
            String.join ((List.range input_files.length).map
                (fun i => "[" ++ toString i ++ ":a]")) ++
              "amix=inputs=" ++ toString input_files.length ++
              ":duration=longest:dropout_transition=2,loudnorm=I=-16:TP=-1.5:LRA=11[out]"),
          "-map", "[out]"] ++
        ["-c:a", codec, "-q:a", (quality_map quality_level).getD "2",
          "-ar", "44100", "-ac", "2", "-avoid_negative_ts", "make_zero"] ++
        ["-metadata", "title=Merged " ++ stripCraig (pathStem output_file),
          "-metadata", "artist=Craig Recording",
          "-metadata", "date=" ++ today] ++
        [output_file]) := by
  unfold build_ffmpeg_command
  rw [hcodec]
  rw [if_neg (by simpa [List.isEmpty_iff] using hne)]
  unfold inputs_str
  rfl

/-- Witness for `build_command_structure`: one single-input and one
three-input instance, with the filter graphs spelled out. -/
theorem build_command_structure_witness :
    build_ffmpeg_command ["a.aac"] "craig-x/out.mp3" "mp3" "medium"
        "2024-01-01" =
      .ok ["ffmpeg", "-y", "-i", "a.aac",
        "-filter_complex", "[0:a]loudnorm=I=-16:TP=-1.5:LRA=11[out]",
        "-map", "[out]",
        "-c:a", "libmp3lame", "-q:a", "2", "-ar", "44100", "-ac", "2",
        "-avoid_negative_ts", "make_zero",
        "-metadata", "title=Merged out", "-metadata",
        "artist=Craig Recording", "-metadata", "date=2024-01-01",
        "craig-x/out.mp3"] ∧
    build_ffmpeg_command ["1.aac", "2.aac", "10.aac"] "out.mp3" "mp3" "high"
        "2024-01-01" =
      .ok ["ffmpeg", "-y", "-i", "1.aac", "-i", "2.aac", "-i", "10.aac",
        "-filter_complex",
        "[0:a][1:a][2:a]amix=inputs=3:duration=longest:dropout_transition=2,loudnorm=I=-16:TP=-1.5:LRA=11[out]",
        "-map", "[out]",
        "-c:a", "libmp3lame", "-q:a", "0", "-ar", "44100", "-ac", "2",
        "-avoid_negative_ts", "make_zero",
        "-metadata", "title=Merged out", "-metadata",
        "artist=Craig Recording", "-metadata", "date=2024-01-01",
        "out.mp3"] := by
  constructor
  · rw [build_command_structure ["a.aac"] "craig-x/out.mp3" "medium"
      "2024-01-01" "mp3" "libmp3lame" (by decide) (by decide)]
    rfl
  · rw [build_command_structure ["1.aac", "2.aac", "10.aac"] "out.mp3"
      "high" "2024-01-01" "mp3" "libmp3lame" (by decide) (by decide)]
    rfl

/-! ## Claim C4: which files are collected -/

/-- C4 (counterexample to the claimed case-insensitivity): a file whose
extension differs only in letter case is NOT collected — the glob match
against the lower-case extension list is case-sensitive (POSIX), so the
claim's demand that `a.AAC` be included fails. -/
theorem scan_case_insensitive_counterexample :
    scan_audio_files ["a.AAC", "b.Mp3"] = [] := by
  unfold scan_audio_files
  rw [show (supported_formats.flatMap
      fun ext => List.filter (globMatch ext) ["a.AAC", "b.Mp3"]) =
      ([] : List String) from by decide]
  exact List.mergeSort_nil

/-- C4 (amended): the file lister collects exactly the entries of the
folder (non-recursive) whose name ends, case-sensitively, with one of
`.aac`, `.mp3`, `.wav`, `.m4a`. -/
theorem scan_audio_files_membership (entries : List String) (x : String) :
    x ∈ scan_audio_files entries ↔
      x ∈ entries ∧ ∃ ext ∈ supported_formats, globMatch ext x = true := by
  unfold scan_audio_files
  rw [List.mem_mergeSort]
  simp only [List.mem_flatMap, List.mem_filter]
  constructor
  · rintro ⟨ext, hext, hx, hm⟩
    exact ⟨hx, ext, hext, hm⟩
  · rintro ⟨hx, ext, hext, hm⟩
    exact ⟨ext, hext, hx, hm⟩

/-! ## Claim C2: the natural-order sort -/

/-- C2: `scan_audio_files` returns a permutation of the collected entries
that is sorted by the natural-sort key (digit runs numerically, non-digit
runs lower-cased), the sort is stable (entries with equal keys keep their
collection order), and on `f1.mp3, f2.mp3, f10.mp3` the output order is
`f1, f2, f10` regardless of input order. -/
theorem scan_audio_files_natural_sort :
    (∀ entries : List String,
      (scan_audio_files entries).Perm
        (supported_formats.flatMap
          (fun ext => entries.filter (globMatch ext)))) ∧
    (∀ entries : List String,
      (scan_audio_files entries).Pairwise (fun a b => natLE a b = true)) ∧
    (∀ (entries : List String) (a b : String),
      natSortKey a = natSortKey b →
      [a, b].Sublist (supported_formats.flatMap
        (fun ext => entries.filter (globMatch ext))) →
      [a, b].Sublist (scan_audio_files entries)) ∧
    scan_audio_files ["f1.mp3", "f2.mp3", "f10.mp3"] =
      ["f1.mp3", "f2.mp3", "f10.mp3"] ∧
    scan_audio_files ["f10.mp3", "f2.mp3", "f1.mp3"] =
      ["f1.mp3", "f2.mp3", "f10.mp3"] := by
  refine ⟨?_, ?_, ?_, ?_, ?_⟩
  · intro entries
    exact List.mergeSort_perm _ natLE
  · intro entries
    exact List.sorted_mergeSort natLE_trans natLE_total _
  · intro entries a b hk hsub
    have hab : natLE a b = true := by
      unfold natLE
      rw [hk, (keyCmp_eq_iff _ _).mpr rfl]
      rfl
    exact List.pair_sublist_mergeSort natLE_trans natLE_total hab hsub
  · unfold scan_audio_files
    rw [show (supported_formats.flatMap
        fun ext => List.filter (globMatch ext)
          ["f1.mp3", "f2.mp3", "f10.mp3"]) =
        ["f1.mp3", "f2.mp3", "f10.mp3"] from by decide]
    exact mergeSort_natLE_eq _ _ (by decide) (by decide) (by decide)
  · unfold scan_audio_files
    rw [show (supported_formats.flatMap
        fun ext => List.filter (globMatch ext)
          ["f10.mp3", "f2.mp3", "f1.mp3"]) =
        ["f10.mp3", "f2.mp3", "f1.mp3"] from by decide]
    exact mergeSort_natLE_eq _ _ (by decide) (by decide) (by decide)

/-! ## Claim C9: time parsing and progress computation -/

theorem splitOnChar_of_not_mem {sep : Char} :
    ∀ {a : List Char}, sep ∉ a → splitOnChar sep a = [a]
  | [], _ => rfl
  | c :: rest, h => by
    have hc : c ≠ sep := fun hh => h (hh ▸ List.mem_cons_self c rest)
    have hrest : sep ∉ rest := fun hh => h (List.mem_cons_of_mem c hh)
    simp only [splitOnChar]
    rw [splitOnChar_of_not_mem hrest]
    simp [hc]

theorem splitOnChar_append {sep : Char} :
    ∀ {a : List Char}, sep ∉ a → ∀ r : List Char,
      splitOnChar sep (a ++ sep :: r) = a :: splitOnChar sep r
  | [], _, r => by
    show splitOnChar sep (sep :: r) = _
    simp only [splitOnChar]
    simp
  | c :: rest, h, r => by
    have hc : c ≠ sep := fun hh => h (hh ▸ List.mem_cons_self c rest)
    have hrest : sep ∉ rest := fun hh => h (List.mem_cons_of_mem c hh)
    show splitOnChar sep (c :: (rest ++ sep :: r)) = _
    simp only [splitOnChar]
    rw [splitOnChar_append hrest r]
    simp [hc]

theorem not_mem_of_all_digit {c : Char} (hc : c.isDigit = false)
    {l : List Char} (hl : l.all Char.isDigit = true) : c ∉ l := by
  intro hmem
  have := List.all_eq_true.mp hl c hmem
  rw [this] at hc
  exact Bool.noConfusion hc

theorem parseInt_digits (d : List Char) (hd : d ≠ [])
    (hdd : d.all Char.isDigit = true) : parseInt d = some (digitsVal d) := by
  unfold parseInt
  rw [if_pos ⟨hd, hdd⟩]

/-- `_time_to_seconds` on a marker of the shape the progress regex
captures: `H:M:S.F` with nonempty digit runs evaluates to
`int(H)*3600 + int(M)*60 + float(S.F)`. -/
theorem time_to_seconds_shape (h m s f : List Char)
    (hh : h ≠ []) (hhd : h.all Char.isDigit = true)
    (hm : m ≠ []) (hmd : m.all Char.isDigit = true)
    (hs : s ≠ []) (hsd : s.all Char.isDigit = true)
    (hf : f ≠ []) (hfd : f.all Char.isDigit = true) :
    time_to_seconds ⟨h ++ ':' :: (m ++ ':' :: (s ++ '.' :: f))⟩ =
      some ((digitsVal h : Rat) * 3600 + (digitsVal m : Rat) * 60 +
        ((digitsVal s : Rat) + (digitsVal f : Rat) / (10 : Rat) ^ f.length)) := by
  have hch : (':' : Char) ∉ h := not_mem_of_all_digit (by decide) hhd
  have hcm : (':' : Char) ∉ m := not_mem_of_all_digit (by decide) hmd
  have hcs : (':' : Char) ∉ s := not_mem_of_all_digit (by decide) hsd
  have hcf : (':' : Char) ∉ f := not_mem_of_all_digit (by decide) hfd
  have hds : ('.' : Char) ∉ s := not_mem_of_all_digit (by decide) hsd
  have hdf : ('.' : Char) ∉ f := not_mem_of_all_digit (by decide) hfd
  have hcsf : (':' : Char) ∉ s ++ '.' :: f := by
    intro hmem
    rcases List.mem_append.mp hmem with hmem | hmem
    · exact hcs hmem
    · rcases List.mem_cons.mp hmem with hmem | hmem
      · exact absurd hmem.symm (by decide)
      · exact hcf hmem
  have hpf : parseFloat (s ++ '.' :: f) =
      some ((digitsVal s : Rat) + (digitsVal f : Rat) / (10 : Rat) ^ f.length) := by
    unfold parseFloat
    rw [splitOnChar_append hds, splitOnChar_of_not_mem hdf]
    show parseFloatParts s f = _
    unfold parseFloatParts
    rw [parseInt_digits s hs hsd, parseInt_digits f hf hfd]
  unfold time_to_seconds
  rw [show (String.mk (h ++ ':' :: (m ++ ':' :: (s ++ '.' :: f)))).data =
    h ++ ':' :: (m ++ ':' :: (s ++ '.' :: f)) from rfl]
  rw [splitOnChar_append hch, splitOnChar_append hcm,
    splitOnChar_of_not_mem hcsf]
  show timeParts h m (s ++ '.' :: f) = _
  unfold timeParts
  rw [parseInt_digits h hh hhd, parseInt_digits m hm hmd, hpf]

/-- The progress value for a line whose marker parses to `current`. -/
theorem lineProgress_marker (total : Rat) (line : String)
    (marker : List Char) (current : Rat)
    (hfind : findTimeMarker line.data = some marker)
    (htime : time_to_seconds ⟨marker⟩ = some current) :
    lineProgress total line =
      some (if total > 0 then current / total * 100 else 0) := by
  unfold lineProgress
  rw [hfind]
  show markerProgress total marker = _
  unfold markerProgress
  rw [htime]

/-- C9: (1) a marker `H:M:S.F` converts to `H*3600 + M*60 + S.F` seconds;
(2) for a line carrying a marker, the reported percentage is
`elapsed/total*100` when the total duration is positive and `0`
otherwise; (3) total duration 120 s with marker `00:01:00.00` reports
50.0 %; (4) a zero total duration always reports 0 (the division is
guarded, never performed). -/
theorem progress_reporting_spec :
    (∀ h m s f : List Char,
      h ≠ [] → h.all Char.isDigit = true →
      m ≠ [] → m.all Char.isDigit = true →
      s ≠ [] → s.all Char.isDigit = true →
      f ≠ [] → f.all Char.isDigit = true →
      time_to_seconds ⟨h ++ ':' :: (m ++ ':' :: (s ++ '.' :: f))⟩ =
        some ((digitsVal h : Rat) * 3600 + (digitsVal m : Rat) * 60 +
          ((digitsVal s : Rat) + (digitsVal f : Rat) / (10 : Rat) ^ f.length))) ∧
    (∀ (total : Rat) (line : String) (marker : List Char) (current : Rat),
      findTimeMarker line.data = some marker →
      time_to_seconds ⟨marker⟩ = some current →
      lineProgress total line =
        some (if total > 0 then current / total * 100 else 0)) ∧
    lineProgress 120 "size=     512kB time=00:01:00.00 bitrate= 139.8kbits/s" =
      some 50 ∧
    (∀ (line : String) (p : Rat), lineProgress 0 line = some p → p = 0) := by
  refine ⟨time_to_seconds_shape, lineProgress_marker, ?_, ?_⟩
  · have hfind : findTimeMarker
        ("size=     512kB time=00:01:00.00 bitrate= 139.8kbits/s").data =
        some (['0', '0'] ++ ':' :: (['0', '1'] ++ ':' ::
          (['0', '0'] ++ '.' :: ['0', '0']))) := by decide
    have htime := time_to_seconds_shape ['0', '0'] ['0', '1'] ['0', '0']
      ['0', '0'] (by decide) (by decide) (by decide) (by decide) (by decide)
      (by decide) (by decide) (by decide)
    rw [lineProgress_marker _ _ _ _ hfind htime]
    rw [show digitsVal ['0', '0'] = 0 from by decide,
      show digitsVal ['0', '1'] = 1 from by decide]
    rw [if_pos (by norm_num)]
    norm_num
  · intro line p hp
    unfold lineProgress at hp
    rcases hfind : findTimeMarker line.data with _ | marker
    · rw [hfind] at hp
      exact absurd hp (by simp)
    · rw [hfind] at hp
      have hp' : markerProgress 0 marker = some p := hp
      unfold markerProgress at hp'
      rcases htime : time_to_seconds ⟨marker⟩ with _ | current
      · rw [htime] at hp'
        exact absurd hp' (by simp)
      · rw [htime] at hp'
        have : (if (0 : Rat) > 0 then current / 0 * 100 else 0) = p :=
          Option.some.inj hp'
        rw [if_neg (by norm_num)] at this
        exact this.symm

/-- Witness for `progress_reporting_spec` at total duration 120 s and the
line `time=00:01:00.00`. -/
theorem progress_reporting_spec_witness :
    lineProgress 120 "time=00:01:00.00" =
      some (if (120 : Rat) > 0 then
        ((digitsVal ['0', '0'] : Rat) * 3600 + (digitsVal ['0', '1'] : Rat) * 60 +
          ((digitsVal ['0', '0'] : Rat) + (digitsVal ['0', '0'] : Rat) /
            (10 : Rat) ^ (['0', '0'] : List Char).length)) / 120 * 100
      else 0) ∧
    (0 : Rat) = 0 := by
  have htime := progress_reporting_spec.1 ['0', '0'] ['0', '1'] ['0', '0']
    ['0', '0'] (by decide) (by decide) (by decide) (by decide) (by decide)
    (by decide) (by decide) (by decide)
  have hfind : findTimeMarker ("time=00:01:00.00").data =
      some (['0', '0'] ++ ':' :: (['0', '1'] ++ ':' ::
        (['0', '0'] ++ '.' :: ['0', '0']))) := by decide
  have hp0 : lineProgress 0 "time=00:01:00.00" = some 0 := by
    rw [lineProgress_marker _ _ _ _ hfind htime]
    norm_num
  exact ⟨progress_reporting_spec.2.1 120 _ _ _ hfind htime,
    progress_reporting_spec.2.2.2 "time=00:01:00.00" 0 hp0⟩

/-! ## Claim C7: process exit handling -/

/-- C7: exit code 0 yields success with empty detail; any nonzero exit
code yields failure — but the error detail is always the empty string,
never the process's diagnostic text: the monitoring loop has already
consumed the stream to EOF when `process.stderr.read()` runs.  The
concrete conjunct shows a failing process whose diagnostic line is
dropped. -/
theorem execute_ffmpeg_outcome :
    (∀ (p : FFmpegProc) (total : Rat),
      (execute_ffmpeg p total).1 =
        ((if p.exitCode = 0 then true else false), "")) ∧
    (execute_ffmpeg ⟨["Error: mixing failed"], 1⟩ 0).1 = (false, "") := by
  constructor
  · intro p total
    simp only [execute_ffmpeg]
    split
    · rfl
    · rfl
  · rfl

/-! ## Claim C8: per-folder error containment and the run summary -/

/-- The success flag of one folder's processing does not depend on the
state of the surrounding filesystem (which is only read back when
deleting originals). -/
theorem merge_fst_indep (fmt q : String) (del : Bool) (today : String)
    (env : FolderEnv) (fs₁ fs₂ : List String) :
    (merge_audio_files fmt q del today env fs₁).1 =
      (merge_audio_files fmt q del today env fs₂).1 := by
  simp only [merge_audio_files]
  split
  · rfl
  · split
    · rfl
    · split
      · split
        · rfl
        · rfl
      · rfl

theorem countP_bool_split {α : Type} (p : α → Bool) (l : List α) :
    l.countP p + l.countP (fun a => !(p a)) = l.length := by
  induction l with
  | nil => rfl
  | cons a l ih =>
    rw [List.countP_cons, List.countP_cons, List.length_cons]
    by_cases h : p a = true <;> simp [h] <;> omega

/-- The folder loop of `process_all_craig_folders` adds, for each folder,
one to exactly one of the two counters, according to that folder's own
merge outcome. -/
theorem process_fold_spec (fmt q : String) (del : Bool) (today : String) :
    ∀ (folders : List FolderEnv) (acc : (Nat × Nat) × List String),
      (folders.foldl (fun acc folder =>
          let r := merge_audio_files fmt q del today folder acc.2
          if r.1 then ((acc.1.1 + 1, acc.1.2), r.2)
          else ((acc.1.1, acc.1.2 + 1), r.2)) acc).1 =
        (acc.1.1 + folders.countP
            (fun env => (merge_audio_files fmt q del today env []).1),
          acc.1.2 + folders.countP
            (fun env => !(merge_audio_files fmt q del today env []).1))
  | [], acc => by simp
  | env :: rest, acc => by
    rw [List.foldl_cons]
    rw [process_fold_spec fmt q del today rest _]
    rw [List.countP_cons, List.countP_cons]
    have hind := merge_fst_indep fmt q del today env acc.2 []
    by_cases hok : (merge_audio_files fmt q del today env []).1 = true
    · have hstep : (merge_audio_files fmt q del today env acc.2).1 = true :=
        hind.trans hok
      simp only [hstep, hok, if_true, Bool.not_true]
      rw [Prod.ext_iff]
      constructor <;> simp <;> omega
    · have hstep : (merge_audio_files fmt q del today env acc.2).1 = false :=
        hind.trans (Bool.eq_false_iff.mpr hok)
      simp only [hstep, Bool.false_eq_true, if_false, hok, Bool.not_false]
      rw [Prod.ext_iff]
      constructor <;> simp [Bool.eq_false_iff.mpr hok] <;> omega

/-- C8: once past discovery, every folder is processed: the summary's
total is the number of folders, its successful/failed counts count
exactly the folders whose own processing succeeded/failed (so an error in
one folder never stops the others), the two counts partition the total,
and a folder whose external process exits nonzero is counted as failed. -/
theorem process_all_summary (fmt q : String) (del : Bool) (today : String)
    (folders : List FolderEnv) (fs : List String) :
    (process_all_craig_folders fmt q del today folders fs).1.total =
      folders.length ∧
    (process_all_craig_folders fmt q del today folders fs).1.successful =
      folders.countP
        (fun env => (merge_audio_files fmt q del today env []).1) ∧
    (process_all_craig_folders fmt q del today folders fs).1.failed =
      folders.countP
        (fun env => !(merge_audio_files fmt q del today env []).1) ∧
    (process_all_craig_folders fmt q del today folders fs).1.successful +
        (process_all_craig_folders fmt q del today folders fs).1.failed =
      folders.length ∧
    (∀ env ∈ folders, env.exitCode ≠ 0 →
      (merge_audio_files fmt q del today env []).1 = false) := by
  have hfold := process_fold_spec fmt q del today folders ((0, 0), fs)
  refine ⟨rfl, ?_, ?_, ?_, ?_⟩
  · show (folders.foldl _ ((0, 0), fs)).1.1 = _
    rw [hfold]
    simp
  · show (folders.foldl _ ((0, 0), fs)).1.2 = _
    rw [hfold]
    simp
  · show (folders.foldl _ ((0, 0), fs)).1.1 +
      (folders.foldl _ ((0, 0), fs)).1.2 = _
    rw [hfold]
    simpa using countP_bool_split
      (fun env => (merge_audio_files fmt q del today env []).1) folders
  · intro env _ hexit
    simp only [merge_audio_files]
    split
    · rfl
    · split
      · rfl
      · have hsucc : (execute_ffmpeg ⟨env.stderrLines, env.exitCode⟩
            env.total_duration).1.1 = false := by
          simp only [execute_ffmpeg]
          rw [if_neg hexit]
        rw [hsucc]
        simp

/-- Witness for `process_all_summary`: a folder whose process exits with
code 1 is counted as failed. -/
theorem process_all_summary_witness :
    (merge_audio_files "mp3" "medium" false "2024-01-01"
      ⟨["a.aac"], 1, ["Error: boom"], false, "n", "out.mp3", 0⟩ []).1 =
      false :=
  (process_all_summary "mp3" "medium" false "2024-01-01"
      [⟨["a.aac"], 1, ["Error: boom"], false, "n", "out.mp3", 0⟩] []).2.2.2.2
    ⟨["a.aac"], 1, ["Error: boom"], false, "n", "out.mp3", 0⟩
    (List.mem_singleton.mpr rfl) (by decide)

/-! ## Claim C10: deletion of originals -/

/-- C10: the original files are removed from the filesystem exactly when
the merge succeeded (which includes the output file existing), the
delete-originals option is set, and the lower-cased interactive answer is
exactly `y`; in every other case the filesystem is unchanged. -/
theorem merge_delete_frame (fmt q : String) (del : Bool) (today : String)
    (env : FolderEnv) (fs : List String) :
    ((merge_audio_files fmt q del today env fs).1 = true ∧
        env.outputExists = true ∧ del = true ∧ pyLower env.answer = "y" →
      (merge_audio_files fmt q del today env fs).2 =
        fs.filter
          (fun f => !(scan_audio_files env.entries).contains f)) ∧
    (¬((merge_audio_files fmt q del today env fs).1 = true ∧ del = true ∧
        pyLower env.answer = "y") →
      (merge_audio_files fmt q del today env fs).2 = fs) := by
  simp only [merge_audio_files]
  split
  · exact ⟨fun h => absurd h.1 (by simp), fun _ => rfl⟩
  · split
    · exact ⟨fun h => absurd h.1 (by simp), fun _ => rfl⟩
    · split
      · split
        · rename_i hdel
          constructor
          · rintro ⟨-, -, -, hans⟩
            show delete_originals_run env.answer _ fs = _
            unfold delete_originals_run
            rw [if_pos hans]
          · intro hneg
            by_cases hans : pyLower env.answer = "y"
            · exact absurd ⟨rfl, hdel, hans⟩ hneg
            · show delete_originals_run env.answer _ fs = fs
              unfold delete_originals_run
              rw [if_neg hans]
        · rename_i hdel
          exact ⟨fun h => absurd h.2.2.1 hdel, fun _ => rfl⟩
      · exact ⟨fun h => absurd h.1 (by simp), fun _ => rfl⟩

/-- Witness for `merge_delete_frame`: with a successful merge, existing
output, the option set and answer `Y`, the input file is deleted and
other files survive; with answer `no`, nothing is deleted. -/
theorem merge_delete_frame_witness :
    ((merge_audio_files "mp3" "medium" true "2024-01-01"
        ⟨["a.aac"], 0, [], true, "Y", "out.mp3", 0⟩
        ["a.aac", "keep.txt"]).2 =
      ["a.aac", "keep.txt"].filter
        (fun f => !(scan_audio_files ["a.aac"]).contains f)) ∧
    ((merge_audio_files "mp3" "medium" true "2024-01-01"
        ⟨["a.aac"], 0, [], true, "no", "out.mp3", 0⟩
        ["a.aac", "keep.txt"]).2 =
      ["a.aac", "keep.txt"]) := by
  have hscan : scan_audio_files ["a.aac"] = ["a.aac"] := by
    unfold scan_audio_files
    rw [show (supported_formats.flatMap
        fun ext => List.filter (globMatch ext) ["a.aac"]) = ["a.aac"]
      from by decide]
    exact List.mergeSort_singleton _
  have hok : ∀ answer : String,
      (merge_audio_files "mp3" "medium" true "2024-01-01"
        ⟨["a.aac"], 0, [], true, answer, "out.mp3", 0⟩
        ["a.aac", "keep.txt"]).1 = true := by
    intro answer
    have hbuild : ∃ cmd, build_ffmpeg_command ["a.aac"] "out.mp3" "mp3"
        "medium" "2024-01-01" = .ok cmd := ⟨_, rfl⟩
    simp only [merge_audio_files]
    rw [hscan]
    split
    · rename_i hempty
      exact absurd hempty (by decide)
    · split
      · rename_i a herr
        obtain ⟨cmd, hcmd⟩ := hbuild
        exact Except.noConfusion (hcmd.symm.trans herr)
      · simp [show (execute_ffmpeg ⟨[], 0⟩ 0).1.1 = true from rfl]
  constructor
  · have := (merge_delete_frame "mp3" "medium" true "2024-01-01"
      ⟨["a.aac"], 0, [], true, "Y", "out.mp3", 0⟩ ["a.aac", "keep.txt"]).1
      ⟨hok "Y", rfl, rfl, by decide⟩
    exact this
  · exact (merge_delete_frame "mp3" "medium" true "2024-01-01"
      ⟨["a.aac"], 0, [], true, "no", "out.mp3", 0⟩ ["a.aac", "keep.txt"]).2
      (fun h => absurd h.2.2 (by decide))

/-- Witness for `scan_audio_files_natural_sort`: two filenames with equal
natural-sort keys keep their collection order in the output. -/
theorem scan_audio_files_natural_sort_witness :
    natSortKey "x1.aac" = natSortKey "x01.aac" ∧
    ["x1.aac", "x01.aac"].Sublist
      (scan_audio_files ["x1.aac", "x01.aac"]) := by
  refine ⟨by decide, ?_⟩
  refine scan_audio_files_natural_sort.2.2.1 ["x1.aac", "x01.aac"]
    "x1.aac" "x01.aac" (by decide) ?_
  rw [show (supported_formats.flatMap
      fun ext => List.filter (globMatch ext) ["x1.aac", "x01.aac"]) =
      ["x1.aac", "x01.aac"] from by decide]

end CraigAudio
